import Mathlib

/-!
Verification development for an audio-recognition system built on landmark
fingerprints (spectrogram peaks paired into SHA-1 hash tokens, matched by
offset-histogram voting).

The definitions below are a shallow embedding of the program's source:

* sha1Hex / hash_token / generate_hashes  embed libs/fingerprint.py
  (generate_hashes and its SHA-1 token construction);
* chunkList embeds the grouper utility (itertools.zip_longest chunks);
* build_mapper / return_matches / store_of embed return_matches of
  recognize_from_file.py;
* vote_step / run_vote / align_matches_file / align_matches_mic /
  collect_step / run_collect / align_matches_collect embed the three
  align_matches variants (recognize_from_file.py, recognize_from_microphone.py,
  collect_fingerprints_of_songs.py);
* FpRow / insert_or_ignore / store_fingerprints / get_song_hashes_count embed
  libs/db_sqlite.py's store_fingerprints against the fingerprints schema of
  reset_database.py (integer autoincrement primary key, no further constraint);
* all_channel_hashes / fingerprint_values embed the per-song hash merge of
  collect_fingerprints_of_songs.py's fingerprint_song;
* hann_window / frame_dft / spec_power / spec_grid / get_2d_peaks /
  fingerprint embed the spectrogram pipeline of libs/fingerprint.py
  (matplotlib.mlab.specgram in PSD mode with a Hann window, the
  10*log10 transform with the -inf clamp, and scipy-based peak extraction),
  specialised to the default parameters used by every caller
  (Fs = 44100, window 4096, overlap ratio 0.5, fan 15, amp_min 10,
  neighborhood 20).  Real magnitudes are modelled exactly over the reals.
-/

set_option maxRecDepth 40000

/-- Python str.upper, applied characterwise (all strings involved are ASCII). -/
def upperStr (s : String) : String := ⟨s.data.map Char.toUpper⟩

/-- UTF-8 bytes of a string; all strings hashed by the program are ASCII,
where the UTF-8 encoding is the list of code points. -/
def strBytes (s : String) : List ℕ := s.data.map Char.toNat

/-- Python string slicing s[:n]. -/
def strTake (s : String) (n : ℕ) : String := ⟨s.data.take n⟩

/-- Auxiliary worker for chunkList: k is the free capacity of the chunk being
filled, acc the (reversed) chunk being filled. -/
def chunkAux {α : Type*} (n : ℕ) : List α → ℕ → List α → List (List α)
  | [], _, acc => if acc.isEmpty then [] else [acc.reverse]
  | a :: l, 0, acc => acc.reverse :: chunkAux n l (n - 1) [a]
  | a :: l, k + 1, acc => chunkAux n l k (a :: acc)

/-- The grouper utility of libs/utils.py (and recognize_from_file.py):
split a sequence into successive chunks of n elements via zip_longest;
the trailing fill values are dropped again by filter(None, ...),
whose effect on truthy elements is the identity (the empty-string case
is applied separately where the program filters hash-token chunks). -/
def chunkList {α : Type*} (n : ℕ) (l : List α) : List (List α) := chunkAux n l n []

/-! ### SHA-1, as used by hashlib.sha1(...).hexdigest() -/

/-- Truncation to a 32-bit machine word. -/
def w32 (x : ℕ) : ℕ := x % 4294967296

/-- Rotate a 32-bit word left by n bits. -/
def rotl (n x : ℕ) : ℕ := w32 (x * 2 ^ n) + x / 2 ^ (32 - n)

/-- Round constants of SHA-1. -/
def sha1K (i : ℕ) : ℕ :=
  if i < 20 then 1518500249 else if i < 40 then 1859775393
  else if i < 60 then 2400959708 else 3395469782

/-- Round functions of SHA-1 (choose, parity, majority, parity). -/
def sha1F (i b c d : ℕ) : ℕ :=
  if i < 20 then (b &&& c) ||| ((4294967295 ^^^ b) &&& d)
  else if i < 40 then b ^^^ c ^^^ d
  else if i < 60 then (b &&& c) ||| (b &&& d) ||| (c &&& d)
  else b ^^^ c ^^^ d

/-- Big-endian byte representation of n in k bytes. -/
def bytesBE : ℕ → ℕ → List ℕ
  | 0, _ => []
  | k + 1, n => bytesBE k (n / 256) ++ [n % 256]

/-- SHA-1 message padding: 0x80, zeros to 56 mod 64, 64-bit big-endian
bit length. -/
def sha1Pad (msg : List ℕ) : List ℕ :=
  msg ++ [128] ++ List.replicate ((55 + 64 - msg.length % 64) % 64) 0 ++
    bytesBE 8 (8 * msg.length)

/-- Split a 64-byte block into 16 big-endian 32-bit words. -/
def wordsOf (block : List ℕ) : List ℕ :=
  (chunkList 4 block).map (fun b => b.foldl (fun a x => a * 256 + x) 0)

/-- Extend 16 message words to the 80 words of the SHA-1 message schedule. -/
def expandWords (ws : List ℕ) : List ℕ :=
  (List.range 64).foldl
    (fun ws _ =>
      ws ++ [rotl 1 ((ws.getD (ws.length - 3) 0) ^^^ (ws.getD (ws.length - 8) 0) ^^^
        (ws.getD (ws.length - 14) 0) ^^^ (ws.getD (ws.length - 16) 0))])
    ws

/-- Compression of one 64-byte block into the running SHA-1 state. -/
def sha1Block (h : ℕ × ℕ × ℕ × ℕ × ℕ) (block : List ℕ) : ℕ × ℕ × ℕ × ℕ × ℕ :=
  let ws := expandWords (wordsOf block)
  let (h0, h1, h2, h3, h4) := h
  let (a, b, c, d, e) := (List.range 80).foldl
    (fun st i =>
      let (a, b, c, d, e) := st
      (w32 (rotl 5 a + sha1F i b c d + e + sha1K i + ws.getD i 0), a, rotl 30 b, c, d))
    (h0, h1, h2, h3, h4)
  (w32 (h0 + a), w32 (h1 + b), w32 (h2 + c), w32 (h3 + d), w32 (h4 + e))

/-- Lower-case hexadecimal digit. -/
def hexChar (n : ℕ) : Char := "0123456789abcdef".data.getD n '0'

/-- Eight hex characters of a 32-bit word, most significant first. -/
def hex8 (n : ℕ) : List Char := (List.range 8).map (fun i => hexChar (n / 16 ^ (7 - i) % 16))

/-- hashlib.sha1(msg).hexdigest(): the 40-character lower-case hex digest. -/
def sha1Hex (msg : List ℕ) : String :=
  let (h0, h1, h2, h3, h4) :=
    (chunkList 64 (sha1Pad msg)).foldl sha1Block
      (1732584193, 4023233417, 2562383102, 271733878, 3285377520)
  ⟨hex8 h0 ++ hex8 h1 ++ hex8 h2 ++ hex8 h3 ++ hex8 h4⟩

/-! ### libs/fingerprint.py: generate_hashes -/

/-- MIN_HASH_TIME_DELTA of libs/fingerprint.py. -/
def MIN_HASH_TIME_DELTA : ℤ := 0

/-- MAX_HASH_TIME_DELTA of libs/fingerprint.py. -/
def MAX_HASH_TIME_DELTA : ℤ := 200

/-- FINGERPRINT_REDUCTION of libs/fingerprint.py: hex characters kept. -/
def FINGERPRINT_REDUCTION : ℕ := 20

/-- DEFAULT_FAN_VALUE of libs/fingerprint.py. -/
def DEFAULT_FAN_VALUE : ℕ := 15

/-- DEFAULT_AMP_MIN of libs/fingerprint.py. -/
def DEFAULT_AMP_MIN : ℝ := 10

/-- The hash token of one peak pair:
sha1 of the string freq1|freq2|t_delta, truncated to FINGERPRINT_REDUCTION
hex characters. -/
def hash_token (freq1 freq2 t_delta : ℤ) : String :=
  strTake (sha1Hex (strBytes (toString freq1 ++ "|" ++ toString freq2 ++ "|" ++ toString t_delta)))
    FINGERPRINT_REDUCTION

/-- peaks.sort(key=itemgetter(1)): the PEAK_SORT step, a stable sort by time
bin (Python list.sort is stable; any stable sort by a total key computes the
same list, so insertion sort models it exactly). -/
def sort_peaks (peaks : List (ℤ × ℤ)) : List (ℤ × ℤ) :=
  peaks.insertionSort (fun a b => a.2 ≤ b.2)

/-- generate_hashes of libs/fingerprint.py: after the sort, pair peak i with
peaks i+1 .. i+fan_value-1; emit a hash for a pair whose time delta lies in
[MIN_HASH_TIME_DELTA, MAX_HASH_TIME_DELTA], anchored at the first peak's
time bin.  Peaks are (frequency_bin, time_bin) pairs. -/
def generate_hashes (peaks : List (ℤ × ℤ)) (fan_value : ℕ) : List (String × ℤ) :=
  let ps := sort_peaks peaks
  (List.range ps.length).flatMap (fun i =>
    (List.range' 1 (fan_value - 1)).filterMap (fun j =>
      if i + j < ps.length then
        let p1 := ps.getD i (0, 0)
        let p2 := ps.getD (i + j) (0, 0)
        let t_delta := p2.2 - p1.2
        if MIN_HASH_TIME_DELTA ≤ t_delta ∧ t_delta ≤ MAX_HASH_TIME_DELTA then
          some (hash_token p1.1 p2.1 t_delta, p1.2)
        else none
      else none))

/-! ### The three align_matches variants (offset-histogram voting) -/

/-- A row of the songs table, as consumed by the recognizers:
index 1 of the row tuple is the song name. -/
structure Song where
  id : ℤ
  name : String
deriving DecidableEq

/-- State of the voting loop of align_matches in recognize_from_file.py and
recognize_from_microphone.py: the nested dict diff_counter (absent cells
count 0, exactly the setdefault behaviour), and the running winner
(largest = winning offset diff, largest_count, song_id). -/
structure VoteState where
  counts : ℤ → ℤ → ℕ
  largest : ℤ
  largest_count : ℕ
  song_id : ℤ

/-- Initial voting state: largest = 0, largest_count = 0, song_id = -1. -/
def initVote : VoteState :=
  { counts := fun _ _ => 0, largest := 0, largest_count := 0, song_id := -1 }

/-- One iteration of the voting loop on a (song_id, diff) match tuple:
increment diff_counter[diff][sid] and, if the new count strictly exceeds
largest_count, record this cell as the winner. -/
def vote_step (st : VoteState) (m : ℤ × ℤ) : VoteState :=
  let sid := m.1
  let diff := m.2
  let c := st.counts diff sid + 1
  let counts' := fun d s => if d = diff ∧ s = sid then c else st.counts d s
  if st.largest_count < c then
    { counts := counts', largest := diff, largest_count := c, song_id := sid }
  else
    { counts := counts', largest := st.largest, largest_count := st.largest_count,
      song_id := st.song_id }

/-- The whole voting loop over a finite match sequence. -/
def run_vote (ms : List (ℤ × ℤ)) : VoteState := ms.foldl vote_step initVote

/-- The dict returned by align_matches; OFFSET_SECS is
round(float(largest) / DEFAULT_FS * DEFAULT_WINDOW_SIZE * DEFAULT_OVERLAP_RATIO, 5),
modelled exactly over ℚ without the final 5-decimal rounding (no claim
depends on it). -/
structure Verdict where
  song_id : ℤ
  song_name : String
  confidence : ℕ
  offset : ℤ
  offset_secs : ℚ
deriving DecidableEq

/-- Offset-delta-to-seconds conversion used by both recognizers. -/
def offset_to_secs (off : ℤ) : ℚ := (off : ℚ) / 44100 * 4096 * (1 / 2)

/-- align_matches of recognize_from_file.py.  After the voting loop it runs
song_m = db.get_song_by_id(song_id) and reads song_m[1] unconditionally;
when the lookup returns no row (None) that subscript raises a TypeError,
modelled here as the result none. -/
def align_matches_file (ms : List (ℤ × ℤ)) (get_song_by_id : ℤ → Option Song) :
    Option Verdict :=
  let st := run_vote ms
  match get_song_by_id st.song_id with
  | none => none
  | some song =>
      some { song_id := st.song_id, song_name := song.name, confidence := st.largest_count,
             offset := st.largest, offset_secs := offset_to_secs st.largest }

/-- align_matches of recognize_from_microphone.py: identical voting loop, but
SONG_NAME falls back to "Unknown" when the song lookup returns None. -/
def align_matches_mic (ms : List (ℤ × ℤ)) (get_song_by_id : ℤ → Option Song) : Verdict :=
  let st := run_vote ms
  { song_id := st.song_id,
    song_name := match get_song_by_id st.song_id with
      | some song => song.name
      | none => "Unknown",
    confidence := st.largest_count,
    offset := st.largest, offset_secs := offset_to_secs st.largest }

/-- State of the voting loop of align_matches in
collect_fingerprints_of_songs.py (which does not track the winning offset). -/
structure CollectState where
  counts : ℤ → ℤ → ℕ
  largest_count : ℕ
  song_id : ℤ

/-- One iteration of the collect-side voting loop. -/
def collect_step (st : CollectState) (m : ℤ × ℤ) : CollectState :=
  let sid := m.1
  let diff := m.2
  let c := st.counts diff sid + 1
  let counts' := fun d s => if d = diff ∧ s = sid then c else st.counts d s
  if st.largest_count < c then
    { counts := counts', largest_count := c, song_id := sid }
  else
    { counts := counts', largest_count := st.largest_count, song_id := st.song_id }

/-- The collect-side voting loop over a finite match sequence. -/
def run_collect (ms : List (ℤ × ℤ)) : CollectState :=
  ms.foldl collect_step { counts := fun _ _ => 0, largest_count := 0, song_id := -1 }

/-- align_matches of collect_fingerprints_of_songs.py: if the winning count
reaches 1000, return (get_song_by_id(song_id), count), else (None, 0). -/
def align_matches_collect (ms : List (ℤ × ℤ)) (get_song_by_id : ℤ → Option Song) :
    Option Song × ℕ :=
  let st := run_collect ms
  if 1000 ≤ st.largest_count then (get_song_by_id st.song_id, st.largest_count)
  else (none, 0)

/-- The duplicate flag of fingerprint_song: the clip is skipped as a duplicate
exactly when the first component (matched_song) is truthy, i.e. some row. -/
def flags_duplicate (ms : List (ℤ × ℤ)) (get_song_by_id : ℤ → Option Song) : Bool :=
  (align_matches_collect ms get_song_by_id).1.isSome

/-! ### return_matches of recognize_from_file.py -/

/-- Python dict insertion: replace the value in place if the key is present,
else append the new key (dicts preserve first-insertion key order). -/
def upsert (m : List (String × ℤ)) (k : String) (v : ℤ) : List (String × ℤ) :=
  if m.any (fun q => q.1 == k) then m.map (fun q => if q.1 == k then (q.1, v) else q)
  else m ++ [(k, v)]

/-- mapper = dict comprehension str(hash).upper() -> int(offset):
last write wins on repeated keys. -/
def build_mapper (hashes : List (String × ℤ)) : List (String × ℤ) :=
  hashes.foldl (fun m p => upsert m (upperStr p.1) p.2) []

/-- mapper[k]; the program only looks up keys returned by the SELECT, which
are always present in the mapper. -/
def lookup_mapper (m : List (String × ℤ)) (k : String) : ℤ := (m.lookup k).getD 0

/-- SELECT upper(hash), song_fk, offset FROM fingerprints WHERE upper(hash)
IN batch: rows are (hash, song_fk, offset) triples, returned in table order
(rowid order: this schema has no index on hash). -/
def select_hash_in (db : List (String × ℤ × ℤ)) (batch : List String) :
    List (String × ℤ × ℤ) :=
  (db.filter (fun r => decide (upperStr r.1 ∈ batch))).map
    (fun r => (upperStr r.1, r.2.1, r.2.2))

/-- return_matches of recognize_from_file.py: build the mapper, iterate the
distinct uppercased tokens in chunks of 1000 (grouper, whose filter(None, ...)
drops the falsy empty string), query the store per chunk and yield
(song_fk, stored_offset - mapper[token]).  Offsets are modelled as integers;
the int.from_bytes branch is a storage representation detail. -/
def return_matches (hashes : List (String × ℤ)) (db : List (String × ℤ × ℤ)) :
    List (ℤ × ℤ) :=
  let mapper := build_mapper hashes
  let values := mapper.map Prod.fst
  ((chunkList 1000 values).map (List.filter (fun s => !(s == "")))).flatMap
    (fun batch =>
      (select_hash_in db batch).map (fun r => (r.2.1, r.2.2 - lookup_mapper mapper r.1)))

/-- The store contents after ingesting the hash list hs for song sid: one
(hash, song_fk, offset) row per hash, in insertion order. -/
def store_of (sid : ℤ) (hs : List (String × ℤ)) : List (String × ℤ × ℤ) :=
  hs.map (fun p => (p.1, sid, p.2))

/-- Round trip at the hash level: store the fingerprints of a clip under sid,
then match the identical fingerprints against that store and resolve the
verdict with align_matches (recognize_from_file.py variant). -/
def round_trip_file (hs : List (String × ℤ)) (sid : ℤ) (get_song_by_id : ℤ → Option Song) :
    Option Verdict :=
  align_matches_file (return_matches hs (store_of sid hs)) get_song_by_id

/-! ### store_fingerprints of libs/db_sqlite.py over the reset_database.py schema -/

/-- A row of the fingerprints table as created by reset_database.py:
id INTEGER PRIMARY KEY AUTOINCREMENT, song_fk INTEGER, hash TEXT,
offset INTEGER - and no other constraint. -/
structure FpRow where
  id : ℕ
  song_fk : ℤ
  hash : String
  offset : ℤ
deriving DecidableEq

/-- INSERT OR IGNORE INTO fingerprints (song_fk, hash, offset) VALUES (?,?,?)
against this schema: the only constraint is the autoincrement primary key,
which a fresh id never violates, so the insert always appends a new row -
OR IGNORE has nothing to ignore. -/
def insert_or_ignore (tbl : List FpRow) (v : ℤ × String × ℤ) : List FpRow :=
  tbl ++ [{ id := tbl.length + 1, song_fk := v.1, hash := v.2.1, offset := v.2.2 }]

/-- store_fingerprints of libs/db_sqlite.py: executemany of the insert over
chunks of 1000 values (grouper; the filter(None, ...) step keeps every
nonempty tuple, hence every value). -/
def store_fingerprints (tbl : List FpRow) (values : List (ℤ × String × ℤ)) : List FpRow :=
  (chunkList 1000 values).foldl (fun t chunk => chunk.foldl insert_or_ignore t) tbl

/-- get_song_hashes_count of libs/db_sqlite.py:
SELECT count(*) FROM fingerprints WHERE song_fk = ?. -/
def get_song_hashes_count (tbl : List FpRow) (sid : ℤ) : ℕ :=
  (tbl.filter (fun r => r.song_fk == sid)).length

/-! ### fingerprint_song of collect_fingerprints_of_songs.py: channel merge -/

/-- all_channel_hashes: the per-channel hash lists are merged through
set().update(...): every channel's hashes are inserted into one set.
The set is modelled as a duplicate-free list built by membership-checked
insertion (Python set iteration order is arbitrary; no claim depends on it). -/
def all_channel_hashes (channels : List (List (String × ℤ))) : List (String × ℤ) :=
  channels.foldl (fun s ch => ch.foldl (fun t x => if x ∈ t then t else x :: t) s) []

/-- fingerprint_values = [(song_id, hash, offset) for hash, offset in
all_channel_hashes]: the records handed to store_fingerprints. -/
def fingerprint_values (sid : ℤ) (channels : List (List (String × ℤ))) :
    List (ℤ × String × ℤ) :=
  (all_channel_hashes channels).map (fun p => (sid, p.1, p.2))

/-! ### The spectrogram pipeline of libs/fingerprint.py (default parameters)

mlab.specgram(samples, NFFT=4096, Fs=44100, window=window_hanning,
noverlap=2048)[0] in PSD mode: buffers shorter than one window are
zero-padded to 4096 samples (np.resize + zeroing of the tail; an empty
buffer resizes to zeros), frames advance by 4096 - 2048 samples, each frame
is multiplied by np.hanning(4096) and transformed; the one-sided power
spectrum doubles every bin except DC and Nyquist and divides by
Fs * sum(window**2). -/

/-- np.hanning(4096) at index n: 0.5 - 0.5 cos(2 pi n / 4095). -/
noncomputable def hann_window (n : ℕ) : ℝ := 1 / 2 - 1 / 2 * Real.cos (2 * Real.pi * n / 4095)

/-- Zero-padding of buffers shorter than one FFT window (np.resize followed
by zeroing the tail; resizing an empty array fills with zeros). -/
def padded (samples : List ℝ) : List ℝ :=
  if samples.length < 4096 then samples ++ List.replicate (4096 - samples.length) 0
  else samples

/-- Number of time bins of the spectrogram: frames advance by
4096 - 2048 = 2048 samples. -/
def num_frames (samples : List ℝ) : ℕ := ((padded samples).length - 4096) / 2048 + 1

/-- The windowed discrete Fourier transform of frame t at frequency bin f. -/
noncomputable def frame_dft (samples : List ℝ) (t f : ℕ) : ℂ :=
  ∑ n ∈ Finset.range 4096,
    (((padded samples).getD (2048 * t + n) 0 * hann_window n : ℝ) : ℂ) *
      Complex.exp ((-(2 * Real.pi * n * f / 4096) : ℝ) * Complex.I)

/-- sum(window ** 2) for the Hann window, the PSD normalisation factor. -/
noncomputable def window_norm : ℝ := ∑ n ∈ Finset.range 4096, hann_window n ^ 2

/-- One cell of the PSD spectrogram returned by mlab.specgram: squared
magnitude, doubled away from DC and Nyquist, divided by Fs * sum(window**2). -/
noncomputable def spec_power (samples : List ℝ) (f t : ℕ) : ℝ :=
  (if f = 0 ∨ f = 2048 then 1 else 2) * Complex.normSq (frame_dft samples t f) /
    (44100 * window_norm)

/-- arr_2d = 10 * np.log10(arr_2d); arr_2d[arr_2d == -np.inf] = 0: the
log-scale step of fingerprint(); the only non-finite value 10*log10 produces
on the nonnegative PSD cells is -inf at 0, which is replaced by 0. -/
noncomputable def log_transform (p : ℝ) : ℝ := if p = 0 then 0 else 10 * Real.logb 10 p

/-- The log-scaled spectrogram grid handed to get_2d_peaks
(frequency bin f, time bin t). -/
noncomputable def spec_grid (samples : List ℝ) (f t : ℕ) : ℝ :=
  log_transform (spec_power samples f t)

/-! ### get_2d_peaks of libs/fingerprint.py -/

/-- iterate_structure(generate_binary_structure(2, 1), 20): the diamond
footprint of offsets with |df| + |dt| <= 20. -/
def diamond : Finset (ℤ × ℤ) :=
  (Finset.Icc (-20 : ℤ) 20 ×ˢ Finset.Icc (-20 : ℤ) 20).filter
    (fun d => d.1.natAbs + d.2.natAbs ≤ 20)

/-- Boundary handling of scipy.ndimage.maximum_filter in its default
mode "reflect": indices are mirrored at the edges including the edge sample
(period 2 * len). -/
def reflect_index (len : ℕ) (j : ℤ) : ℕ :=
  let m := (j % (2 * len)).toNat
  if m < len then m else 2 * len - 1 - m

/-- maximum_filter(arr, footprint=diamond) at cell (f, t) of an F-by-T grid. -/
noncomputable def max_filter (g : ℕ → ℕ → ℝ) (F T f t : ℕ) : ℝ :=
  diamond.sup' ⟨(0, 0), by decide⟩
    (fun d => g (reflect_index F ((f : ℤ) + d.1)) (reflect_index T ((t : ℤ) + d.2)))

/-- local_max = maximum_filter(arr, footprint=neighborhood) == arr. -/
def local_max_at (g : ℕ → ℕ → ℝ) (F T f t : ℕ) : Prop := max_filter g F T f t = g f t

/-- background = (arr_2d == 0). -/
def background_at (g : ℕ → ℕ → ℝ) (f t : ℕ) : Prop := g f t = 0

/-- binary_erosion(background, structure=neighborhood, border_value=1) at
cell (f, t): every in-bounds cell of the footprint is background
(out-of-bounds cells count as background via border_value=1). -/
def eroded_background_at (g : ℕ → ℕ → ℝ) (F T f t : ℕ) : Prop :=
  ∀ d ∈ diamond, 0 ≤ (f : ℤ) + d.1 → (f : ℤ) + d.1 < (F : ℤ) →
    0 ≤ (t : ℤ) + d.2 → (t : ℤ) + d.2 < (T : ℤ) →
    background_at g ((f : ℤ) + d.1).toNat ((t : ℤ) + d.2).toNat

/-- detected_peaks = local_max ^ eroded_background (boolean xor). -/
def detected_peak_at (g : ℕ → ℕ → ℝ) (F T f t : ℕ) : Prop :=
  Xor' (local_max_at g F T f t) (eroded_background_at g F T f t)

open Classical in
/-- get_2d_peaks: the detected cells with amplitude strictly above amp_min,
listed in row-major (frequency, then time) order as (frequency_bin, time_bin)
pairs, exactly as np.nonzero enumerates them. -/
noncomputable def get_2d_peaks (g : ℕ → ℕ → ℝ) (F T : ℕ) (amp_min : ℝ) : List (ℤ × ℤ) :=
  (List.range F).flatMap (fun f =>
    (List.range T).filterMap (fun t =>
      if detected_peak_at g F T f t ∧ amp_min < g f t then some ((f : ℤ), (t : ℤ))
      else none))

/-- fingerprint(channel_samples) of libs/fingerprint.py at the default
parameters: spectrogram, log transform, peak extraction
(2049 = 4096/2 + 1 frequency bins), then generate_hashes. -/
noncomputable def fingerprint (samples : List ℝ) : List (String × ℤ) :=
  generate_hashes
    (get_2d_peaks (spec_grid samples) 2049 (num_frames samples) DEFAULT_AMP_MIN)
    DEFAULT_FAN_VALUE

/-- Round trip at the clip level: fingerprint a clip, store the resulting
records under sid, match the identical clip against that store. -/
noncomputable def clip_round_trip (samples : List ℝ) (sid : ℤ)
    (get_song_by_id : ℤ → Option Song) : Option Verdict :=
  round_trip_file (fingerprint samples) sid get_song_by_id

/-! ### Basic lemmas about the chunking utility -/

theorem chunkAux_flatten {α : Type*} (n : ℕ) (l : List α) : ∀ (k : ℕ) (acc : List α),
    (chunkAux n l k acc).flatten = acc.reverse ++ l := by
  induction l with
  | nil =>
      intro k acc
      by_cases h : acc.isEmpty
      · simp [chunkAux, h, List.isEmpty_iff.mp h]
      · simp [chunkAux, h]
  | cons a l ih =>
      intro k acc
      match k with
      | 0 => simp [chunkAux, ih]
      | k + 1 => simp [chunkAux, ih]

theorem chunkList_flatten {α : Type*} (n : ℕ) (l : List α) :
    (chunkList n l).flatten = l := by
  simp [chunkList, chunkAux_flatten]

theorem exists_chunk_of_mem {α : Type*} {n : ℕ} {l : List α} {x : α} (hx : x ∈ l) :
    ∃ c ∈ chunkList n l, x ∈ c := by
  have := chunkList_flatten n l
  rw [← this] at hx
  exact List.mem_flatten.mp hx

/-! ### The voting loop: invariant and tie behaviour -/

theorem vote_step_inv {st : VoteState} (m : ℤ × ℤ)
    (h1 : st.counts st.largest st.song_id = st.largest_count)
    (h2 : ∀ d s, st.counts d s ≤ st.largest_count) :
    (vote_step st m).counts (vote_step st m).largest (vote_step st m).song_id
        = (vote_step st m).largest_count
    ∧ ∀ d s, (vote_step st m).counts d s ≤ (vote_step st m).largest_count := by
  by_cases hc : st.largest_count < st.counts m.2 m.1 + 1
  · refine ⟨?_, ?_⟩
    · simp [vote_step, hc]
    · intro d s
      by_cases hd : d = m.2 ∧ s = m.1
      · simp [vote_step, hc, hd]
      · simp only [vote_step, if_pos hc, if_neg hd]
        exact le_trans (h2 d s) (Nat.le_of_lt hc)
  · refine ⟨?_, ?_⟩
    · have hne : ¬ (st.largest = m.2 ∧ st.song_id = m.1) := by
        rintro ⟨e1, e2⟩
        rw [e1, e2] at h1
        omega
      simp only [vote_step, if_neg hc, if_neg hne]
      exact h1
    · intro d s
      by_cases hd : d = m.2 ∧ s = m.1
      · simp only [vote_step, if_neg hc, if_pos hd]
        omega
      · simp only [vote_step, if_neg hc, if_neg hd]
        exact h2 d s

theorem run_vote_inv (ms : List (ℤ × ℤ)) :
    (run_vote ms).counts (run_vote ms).largest (run_vote ms).song_id
        = (run_vote ms).largest_count
    ∧ ∀ d s, (run_vote ms).counts d s ≤ (run_vote ms).largest_count := by
  have key : ∀ (l : List (ℤ × ℤ)) (st : VoteState),
      (st.counts st.largest st.song_id = st.largest_count
        ∧ ∀ d s, st.counts d s ≤ st.largest_count) →
      ((l.foldl vote_step st).counts (l.foldl vote_step st).largest
          (l.foldl vote_step st).song_id = (l.foldl vote_step st).largest_count
        ∧ ∀ d s, (l.foldl vote_step st).counts d s ≤ (l.foldl vote_step st).largest_count) := by
    intro l
    induction l with
    | nil => intro st h; exact h
    | cons a l ih =>
        intro st h
        exact ih (vote_step st a) (vote_step_inv a h.1 h.2)
  exact key ms initVote ⟨rfl, fun _ _ => Nat.le_refl 0⟩

/-- C5.  Voter winner tracking: the final winner cell holds exactly
largest_count votes, no cell holds more, a step whose incremented cell does
not strictly exceed the incumbent count never changes the winner
(first-seen wins on ties), and the verdict reports the winning song_id, its
count as confidence, and the winning offset delta. -/
theorem alignment_voter_winner (ms : List (ℤ × ℤ)) :
    ((run_vote ms).counts (run_vote ms).largest (run_vote ms).song_id
        = (run_vote ms).largest_count
      ∧ ∀ d s, (run_vote ms).counts d s ≤ (run_vote ms).largest_count)
    ∧ (∀ (st : VoteState) (m : ℤ × ℤ), st.counts m.2 m.1 + 1 ≤ st.largest_count →
        (vote_step st m).largest = st.largest
          ∧ (vote_step st m).largest_count = st.largest_count
          ∧ (vote_step st m).song_id = st.song_id)
    ∧ (∀ (get_song_by_id : ℤ → Option Song) (s : Song),
        get_song_by_id (run_vote ms).song_id = some s →
        align_matches_file ms get_song_by_id = some
          { song_id := (run_vote ms).song_id, song_name := s.name,
            confidence := (run_vote ms).largest_count, offset := (run_vote ms).largest,
            offset_secs := offset_to_secs (run_vote ms).largest }) := by
  refine ⟨run_vote_inv ms, ?_, ?_⟩
  · intro st m hm
    have hc : ¬ st.largest_count < st.counts m.2 m.1 + 1 := by omega
    refine ⟨?_, ?_, ?_⟩ <;> simp [vote_step, hc]
  · intro lk s hs
    simp [align_matches_file, hs]

/-- Witness for alignment_voter_winner at the concrete stream [(5, 3)],
a tie-preservation step, and a concrete song lookup. -/
theorem alignment_voter_winner_witness :
    ((run_vote [((5 : ℤ), (3 : ℤ))]).counts (run_vote [((5 : ℤ), (3 : ℤ))]).largest
        (run_vote [((5 : ℤ), (3 : ℤ))]).song_id = (run_vote [((5 : ℤ), (3 : ℤ))]).largest_count)
    ∧ ((vote_step { counts := fun _ _ => 0, largest := 2, largest_count := 4, song_id := 9 }
          ((1 : ℤ), (1 : ℤ))).song_id = 9)
    ∧ align_matches_file [((5 : ℤ), (3 : ℤ))]
        (fun i => if i = 5 then some { id := 5, name := "x" } else none) = some
          { song_id := (run_vote [((5 : ℤ), (3 : ℤ))]).song_id, song_name := "x",
            confidence := (run_vote [((5 : ℤ), (3 : ℤ))]).largest_count,
            offset := (run_vote [((5 : ℤ), (3 : ℤ))]).largest,
            offset_secs := offset_to_secs (run_vote [((5 : ℤ), (3 : ℤ))]).largest } :=
  ⟨(alignment_voter_winner [((5 : ℤ), (3 : ℤ))]).1.1,
   ((alignment_voter_winner [((5 : ℤ), (3 : ℤ))]).2.1
      { counts := fun _ _ => 0, largest := 2, largest_count := 4, song_id := 9 }
      ((1 : ℤ), (1 : ℤ)) (by decide)).2.2,
   (alignment_voter_winner [((5 : ℤ), (3 : ℤ))]).2.2
      (fun i => if i = 5 then some { id := 5, name := "x" } else none)
      { id := 5, name := "x" } (by decide)⟩

/-! ### C8: the unknown-song fallback -/

/-- C8 counterexample.  With zero observations the file recognizer looks up
the sentinel song_id -1; when the songs table has no such row, align_matches
of recognize_from_file.py evaluates song_m[1] on None and fails (modelled as
the result none) instead of reporting an unknown-song fallback name. -/
theorem unknown_song_file_crash_cex :
    (run_vote []).song_id = -1
    ∧ align_matches_file [] (fun _ => none) = none := by
  constructor
  · rfl
  · rfl

/-- C8 (amended).  When the song lookup of the winning song_id returns
absent, the microphone recognizer reports the fallback name "Unknown",
while the file recognizer fails (raises on song_m[1], modelled as none)
rather than reporting a fallback. -/
theorem unknown_song_fallback (ms : List (ℤ × ℤ)) (get_song_by_id : ℤ → Option Song)
    (h : get_song_by_id (run_vote ms).song_id = none) :
    align_matches_file ms get_song_by_id = none
    ∧ (align_matches_mic ms get_song_by_id).song_name = "Unknown" := by
  constructor
  · simp [align_matches_file, h]
  · simp [align_matches_mic, h]

/-- Witness for unknown_song_fallback at the empty observation stream and the
everywhere-absent lookup. -/
theorem unknown_song_fallback_witness :
    align_matches_mic [] (fun _ => none) = align_matches_mic [] (fun _ => none)
    ∧ (align_matches_mic [] (fun _ => none)).song_name = "Unknown" :=
  ⟨rfl, (unknown_song_fallback [] (fun _ => none) rfl).2⟩

/-! ### C9: fingerprint-insert idempotence against the actual schema -/

/-- C9.  The fingerprints table of reset_database.py has no unique constraint
on (song_fk, hash, offset), so INSERT OR IGNORE never ignores: storing the
batch [(1, "AB", 5)] once yields one row for song 1, storing it twice yields
two rows - the duplicate triple is not a no-op, contradicting the intended
INSERT-OR-IGNORE-on-the-natural-key semantics stated by the spec and
suggested by the query text itself. -/
theorem fingerprint_insert_not_idempotent :
    get_song_hashes_count (store_fingerprints [] [((1 : ℤ), "AB", (5 : ℤ))]) 1 = 1
    ∧ get_song_hashes_count
        (store_fingerprints (store_fingerprints [] [((1 : ℤ), "AB", (5 : ℤ))])
          [((1 : ℤ), "AB", (5 : ℤ))]) 1 = 2 := by
  constructor
  · rfl
  · rfl

/-! ### C10: per-song deduplication before persistence -/

theorem all_channel_hashes_nodup (channels : List (List (String × ℤ))) :
    (all_channel_hashes channels).Nodup := by
  have inner : ∀ (ch acc : List (String × ℤ)), acc.Nodup →
      (ch.foldl (fun t x => if x ∈ t then t else x :: t) acc).Nodup := by
    intro ch
    induction ch with
    | nil => intro acc h; exact h
    | cons a ch ih =>
        intro acc h
        simp only [List.foldl_cons]
        by_cases hm : a ∈ acc
        · simpa [hm] using ih acc h
        · simpa [hm] using ih (a :: acc) (List.nodup_cons.mpr ⟨hm, h⟩)
  have outer : ∀ (cs : List (List (String × ℤ))) (acc : List (String × ℤ)), acc.Nodup →
      (cs.foldl (fun s ch => ch.foldl (fun t x => if x ∈ t then t else x :: t) s) acc).Nodup := by
    intro cs
    induction cs with
    | nil => intro acc h; exact h
    | cons c cs ih => intro acc h; exact ih _ (inner c acc h)
  exact outer channels [] List.nodup_nil

/-- C10.  The (song_id, hash, offset) records passed to store_fingerprints
for one song are built from the set union of all channels' hashes, hence
contain no duplicate triple. -/
theorem ingestion_hash_dedup (sid : ℤ) (channels : List (List (String × ℤ))) :
    (fingerprint_values sid channels).Nodup := by
  refine List.Nodup.map ?_ (all_channel_hashes_nodup channels)
  intro p q h
  simpa [Prod.ext_iff] using h

/-! ### C2: the log-scale step -/

/-- C2.  A PSD spectrogram cell holds the squared magnitude m^2 (up to the
positive PSD normalisation); the code's 10*log10 transform of that cell
equals the claimed 20*log10(m) on every positive magnitude, and the one
non-finite case, magnitude zero, is replaced by 0. -/
theorem spectrogram_log_scaling (m : ℝ) (hm : 0 ≤ m) :
    log_transform (m ^ 2) = if m = 0 then 0 else 20 * Real.logb 10 m := by
  rcases eq_or_lt_of_le hm with h | h
  · rw [← h]
    simp [log_transform]
  · rw [if_neg (ne_of_gt h), log_transform, if_neg (pow_ne_zero 2 (ne_of_gt h))]
    simp only [Real.logb, Real.log_pow]
    push_cast
    ring

/-- Witness for spectrogram_log_scaling at magnitude 10. -/
theorem spectrogram_log_scaling_witness :
    log_transform ((10 : ℝ) ^ 2) = if (10 : ℝ) = 0 then 0 else 20 * Real.logb 10 10 :=
  spectrogram_log_scaling 10 (by norm_num)

/-! ### C6: the time-delta filter of generate_hashes -/

/-- C6.  Every emitted hash comes from a sorted peak pair (i, i+j) within the
fan window whose time delta lies in [MIN_HASH_TIME_DELTA, MAX_HASH_TIME_DELTA],
and a peak pair at distance MAX_HASH_TIME_DELTA + 1 emits no hash at all. -/
theorem time_delta_filter :
    (∀ (peaks : List (ℤ × ℤ)) (fan_value : ℕ) (x : String × ℤ),
        x ∈ generate_hashes peaks fan_value →
        ∃ i j, 1 ≤ j ∧ j < fan_value ∧ i + j < (sort_peaks peaks).length ∧
          MIN_HASH_TIME_DELTA ≤ ((sort_peaks peaks).getD (i + j) (0, 0)).2
              - ((sort_peaks peaks).getD i (0, 0)).2 ∧
          ((sort_peaks peaks).getD (i + j) (0, 0)).2
              - ((sort_peaks peaks).getD i (0, 0)).2 ≤ MAX_HASH_TIME_DELTA ∧
          x = (hash_token ((sort_peaks peaks).getD i (0, 0)).1
                ((sort_peaks peaks).getD (i + j) (0, 0)).1
                (((sort_peaks peaks).getD (i + j) (0, 0)).2
                  - ((sort_peaks peaks).getD i (0, 0)).2),
              ((sort_peaks peaks).getD i (0, 0)).2))
    ∧ ∀ (f1 f2 t : ℤ),
        generate_hashes [(f1, t), (f2, t + (MAX_HASH_TIME_DELTA + 1))] DEFAULT_FAN_VALUE
          = [] := by
  constructor
  · intro peaks fan x hx
    simp only [generate_hashes] at hx
    rw [List.mem_flatMap] at hx
    obtain ⟨i, hi, hx⟩ := hx
    rw [List.mem_filterMap] at hx
    obtain ⟨j, hj, hfj⟩ := hx
    rw [List.mem_range'_1] at hj
    by_cases h1 : i + j < (sort_peaks peaks).length
    · rw [if_pos h1] at hfj
      by_cases h2 : MIN_HASH_TIME_DELTA ≤ ((sort_peaks peaks).getD (i + j) (0, 0)).2
          - ((sort_peaks peaks).getD i (0, 0)).2
          ∧ ((sort_peaks peaks).getD (i + j) (0, 0)).2
              - ((sort_peaks peaks).getD i (0, 0)).2 ≤ MAX_HASH_TIME_DELTA
      · rw [if_pos h2] at hfj
        exact ⟨i, j, by omega, by omega, h1, h2.1, h2.2, (Option.some.inj hfj).symm⟩
      · rw [if_neg h2] at hfj
        exact absurd hfj (Option.noConfusion)
    · rw [if_neg h1] at hfj
      exact absurd hfj (Option.noConfusion)
  · intro f1 f2 t
    have hle : t ≤ t + (MAX_HASH_TIME_DELTA + 1) := by
      have : (0 : ℤ) ≤ MAX_HASH_TIME_DELTA + 1 := by decide
      omega
    have hs : sort_peaks [(f1, t), (f2, t + (MAX_HASH_TIME_DELTA + 1))]
        = [(f1, t), (f2, t + (MAX_HASH_TIME_DELTA + 1))] := by
      simp [sort_peaks, List.insertionSort, List.orderedInsert, hle]
    simp only [generate_hashes, hs]
    rw [List.flatMap_eq_nil_iff]
    intro i hi
    rw [List.filterMap_eq_nil_iff]
    intro j hj
    rw [List.mem_range'_1] at hj
    simp only [List.length_cons, List.length_nil] at hi ⊢
    by_cases h1 : i + j < 2
    · have hi0 : i = 0 := by
        rw [List.mem_range] at hi
        omega
      have hj1 : j = 1 := by omega
      subst hi0
      subst hj1
      rw [if_pos (by omega)]
      rw [if_neg]
      simp [MIN_HASH_TIME_DELTA, MAX_HASH_TIME_DELTA]
    · rw [if_neg (by omega)]

/-- Witness for time_delta_filter: the two-peak list [(5,0),(6,3)] with time
delta 3 emits its hash, which the first part decomposes into its underlying
pair. -/
theorem time_delta_filter_witness :
    ∃ i j, 1 ≤ j ∧ j < DEFAULT_FAN_VALUE
      ∧ i + j < (sort_peaks [((5 : ℤ), (0 : ℤ)), ((6 : ℤ), (3 : ℤ))]).length
      ∧ MIN_HASH_TIME_DELTA ≤
          ((sort_peaks [((5 : ℤ), (0 : ℤ)), ((6 : ℤ), (3 : ℤ))]).getD (i + j) (0, 0)).2
          - ((sort_peaks [((5 : ℤ), (0 : ℤ)), ((6 : ℤ), (3 : ℤ))]).getD i (0, 0)).2
      ∧ ((sort_peaks [((5 : ℤ), (0 : ℤ)), ((6 : ℤ), (3 : ℤ))]).getD (i + j) (0, 0)).2
          - ((sort_peaks [((5 : ℤ), (0 : ℤ)), ((6 : ℤ), (3 : ℤ))]).getD i (0, 0)).2
          ≤ MAX_HASH_TIME_DELTA
      ∧ (hash_token 5 6 3, (0 : ℤ)) =
          (hash_token ((sort_peaks [((5 : ℤ), (0 : ℤ)), ((6 : ℤ), (3 : ℤ))]).getD i (0, 0)).1
            ((sort_peaks [((5 : ℤ), (0 : ℤ)), ((6 : ℤ), (3 : ℤ))]).getD (i + j) (0, 0)).1
            (((sort_peaks [((5 : ℤ), (0 : ℤ)), ((6 : ℤ), (3 : ℤ))]).getD (i + j) (0, 0)).2
              - ((sort_peaks [((5 : ℤ), (0 : ℤ)), ((6 : ℤ), (3 : ℤ))]).getD i (0, 0)).2),
            ((sort_peaks [((5 : ℤ), (0 : ℤ)), ((6 : ℤ), (3 : ℤ))]).getD i (0, 0)).2) :=
  time_delta_filter.1 [((5 : ℤ), (0 : ℤ)), ((6 : ℤ), (3 : ℤ))] DEFAULT_FAN_VALUE
    (hash_token 5 6 3, (0 : ℤ)) (by decide)

/-! ### C3: invariance of hashing under peak order -/

theorem sort_peaks_eq_of_perm {p q : List (ℤ × ℤ)} (hperm : p.Perm q)
    (hnd : (p.map Prod.snd).Nodup) : sort_peaks p = sort_peaks q := by
  haveI instTot : IsTotal (ℤ × ℤ) (fun a b => a.2 ≤ b.2) := ⟨fun a b => le_total _ _⟩
  haveI instTrans : IsTrans (ℤ × ℤ) (fun a b => a.2 ≤ b.2) :=
    ⟨fun _ _ _ h1 h2 => le_trans h1 h2⟩
  haveI instAnti : IsAntisymm (ℤ × ℤ) (fun a b => a.2 < b.2) :=
    ⟨fun a b h1 h2 => absurd (lt_trans h1 h2) (lt_irrefl _)⟩
  have strict : ∀ (l : List (ℤ × ℤ)), (l.map Prod.snd).Nodup →
      (List.insertionSort (fun a b => a.2 ≤ b.2) l).Sorted (fun a b => a.2 < b.2) := by
    intro l hl
    have hsor := List.sorted_insertionSort (fun a b => a.2 ≤ b.2) l
    have hnds : ((List.insertionSort (fun a b => a.2 ≤ b.2) l).map Prod.snd).Nodup :=
      (((List.perm_insertionSort (fun a b => a.2 ≤ b.2) l).map Prod.snd).nodup_iff).mpr hl
    have hne : (List.insertionSort (fun a b => a.2 ≤ b.2) l).Pairwise
        (fun a b => a.2 ≠ b.2) := List.pairwise_map.mp hnds
    exact (hsor.and hne).imp (fun h => lt_of_le_of_ne h.1 h.2)
  have hndq : (q.map Prod.snd).Nodup := ((hperm.map Prod.snd).nodup_iff).mp hnd
  have pp : (List.insertionSort (fun a b => a.2 ≤ b.2) p).Perm
      (List.insertionSort (fun a b => a.2 ≤ b.2) q) :=
    ((List.perm_insertionSort _ p).trans hperm).trans
      (List.perm_insertionSort (fun a b => a.2 ≤ b.2) q).symm
  exact List.eq_of_perm_of_sorted pp (strict p hnd) (strict q hndq)

/-- C3 (amended).  When no two peaks share a time bin, the Landmark Hasher is
invariant under any permutation of its input: the internal stable sort then
produces the same sorted list, hence the same hash list. -/
theorem hashing_peak_order_invariance (p q : List (ℤ × ℤ)) (fan_value : ℕ)
    (hperm : p.Perm q) (hnd : (p.map Prod.snd).Nodup) :
    generate_hashes p fan_value = generate_hashes q fan_value := by
  simp only [generate_hashes]
  rw [sort_peaks_eq_of_perm hperm hnd]

/-- Witness for hashing_peak_order_invariance on two swapped peaks with
distinct time bins. -/
theorem hashing_peak_order_invariance_witness :
    generate_hashes [((3 : ℤ), (4 : ℤ)), ((1 : ℤ), (2 : ℤ))] DEFAULT_FAN_VALUE
      = generate_hashes [((1 : ℤ), (2 : ℤ)), ((3 : ℤ), (4 : ℤ))] DEFAULT_FAN_VALUE :=
  hashing_peak_order_invariance _ _ _ (List.Perm.swap _ _ _) (by decide)

set_option maxHeartbeats 2000000 in
/-- C3 counterexample.  Two distinct peaks sharing time bin 0: the shuffled
copy is a permutation of the original, yet the hash sets differ, because the
stable sort keeps the original relative order of equal-time peaks, so the
pairing (and thus the SHA-1 input "1|2|0" versus "2|1|0") depends on the
input order. -/
theorem hashing_equal_time_bins_cex :
    [((1 : ℤ), (0 : ℤ)), ((2 : ℤ), (0 : ℤ))].Perm [((2 : ℤ), (0 : ℤ)), ((1 : ℤ), (0 : ℤ))]
    ∧ (generate_hashes [((1 : ℤ), (0 : ℤ)), ((2 : ℤ), (0 : ℤ))] DEFAULT_FAN_VALUE).toFinset
      ≠ (generate_hashes [((2 : ℤ), (0 : ℤ)), ((1 : ℤ), (0 : ℤ))] DEFAULT_FAN_VALUE).toFinset := by
  refine ⟨List.Perm.swap _ _ _, ?_⟩
  decide

/-! ### C4: the ingestion-time duplicate threshold -/

theorem run_collect_replicate (a d : ℤ) (n : ℕ) (hn : 0 < n) :
    (run_collect (List.replicate n (a, d))).largest_count = n
    ∧ (run_collect (List.replicate n (a, d))).song_id = a
    ∧ ∀ d' s', (run_collect (List.replicate n (a, d))).counts d' s'
        = if d' = d ∧ s' = a then n else 0 := by
  induction n with
  | zero => exact absurd hn (lt_irrefl 0)
  | succ n ih =>
      rcases Nat.eq_zero_or_pos n with h0 | hpos
      · subst h0
        refine ⟨?_, ?_, ?_⟩
        · simp [run_collect, collect_step]
        · simp [run_collect, collect_step]
        · intro d' s'
          by_cases hd : d' = d ∧ s' = a
          · simp [run_collect, collect_step, hd]
          · simp [run_collect, collect_step, hd]
      · obtain ⟨h1, h2, h3⟩ := ih hpos
        have happ : List.replicate (n + 1) (a, d) = List.replicate n (a, d) ++ [(a, d)] :=
          List.replicate_succ' n (a, d)
        have hfold : run_collect (List.replicate (n + 1) (a, d))
            = collect_step (run_collect (List.replicate n (a, d))) (a, d) := by
          rw [happ]
          simp [run_collect, List.foldl_append]
        have hcnt : (run_collect (List.replicate n (a, d))).counts d a = n := by
          rw [h3]
          simp
        have hlt2 : (run_collect (List.replicate n (a, d))).largest_count < n + 1 := by
          omega
        refine ⟨?_, ?_, ?_⟩
        · rw [hfold]
          simp only [collect_step]
          rw [hcnt, if_pos hlt2]
        · rw [hfold]
          simp only [collect_step]
          rw [hcnt, if_pos hlt2]
        · intro d' s'
          rw [hfold]
          simp only [collect_step]
          rw [hcnt, if_pos hlt2]
          by_cases hd : d' = d ∧ s' = a
          · simp [hd]
          · simp [hd, h3 d' s']

/-- C4.  Duplicate-detection gate of collect_fingerprints_of_songs.py: as
long as the song lookup succeeds, fingerprint_song flags the clip as a
duplicate exactly when the winning vote cell's count reaches 1000. -/
theorem duplicate_threshold_gate (ms : List (ℤ × ℤ)) (get_song_by_id : ℤ → Option Song)
    (h : ∀ i, (get_song_by_id i).isSome) :
    flags_duplicate ms get_song_by_id = true ↔ 1000 ≤ (run_collect ms).largest_count := by
  unfold flags_duplicate align_matches_collect
  by_cases hc : 1000 ≤ (run_collect ms).largest_count
  · simp only [if_pos hc]
    simpa [hc] using h (run_collect ms).song_id
  · simp [hc]

theorem run_collect_append_single (l : List (ℤ × ℤ)) (x : ℤ × ℤ) :
    run_collect (l ++ [x]) = collect_step (run_collect l) x := by
  simp [run_collect, List.foldl_append]

theorem collect_step_no_overtake (st : CollectState) (x : ℤ × ℤ)
    (h : st.counts x.2 x.1 + 1 ≤ st.largest_count) :
    (collect_step st x).largest_count = st.largest_count := by
  have hc : ¬ st.largest_count < st.counts x.2 x.1 + 1 := by omega
  simp [collect_step, hc]

/-- Witness for duplicate_threshold_gate: a stream of exactly 999 votes for
song 1 at one offset plus 1 vote for song 2 is not flagged, while 1000 votes
for song 1 is flagged. -/
theorem duplicate_threshold_gate_witness :
    flags_duplicate (List.replicate 999 ((1 : ℤ), (0 : ℤ)) ++ [((2 : ℤ), (0 : ℤ))])
        (fun i => some { id := i, name := "s" }) = false
    ∧ flags_duplicate (List.replicate 1000 ((1 : ℤ), (0 : ℤ)))
        (fun i => some { id := i, name := "s" }) = true := by
  have hlk : ∀ i : ℤ, ((fun i : ℤ => some { id := i, name := "s" } : ℤ → Option Song) i).isSome :=
    fun _ => rfl
  obtain ⟨c999, _, cnt999⟩ := run_collect_replicate 1 0 999 (by omega)
  obtain ⟨c1000, _, _⟩ := run_collect_replicate 1 0 1000 (by omega)
  constructor
  · have hcount : (run_collect (List.replicate 999 ((1 : ℤ), (0 : ℤ))
        ++ [((2 : ℤ), (0 : ℤ))])).largest_count = 999 := by
      rw [run_collect_append_single]
      rw [collect_step_no_overtake _ _ (by rw [cnt999]; norm_num; omega)]
      exact c999
    refine Bool.eq_false_iff.mpr ?_
    intro habs
    have := (duplicate_threshold_gate _ _ hlk).mp habs
    omega
  · refine (duplicate_threshold_gate _ _ hlk).mpr ?_
    omega

/-! ### C1: round trip on exact match (hash level) -/

theorem build_mapper_aux (hs : List (String × ℤ)) :
    ∀ m : List (String × ℤ),
      (m.map Prod.fst ++ hs.map (fun p => upperStr p.1)).Nodup →
      hs.foldl (fun m p => upsert m (upperStr p.1) p.2) m
        = m ++ hs.map (fun p => (upperStr p.1, p.2)) := by
  induction hs with
  | nil => intro m _; simp
  | cons a hs ih =>
      intro m h
      have hnotin : upperStr a.1 ∉ m.map Prod.fst := by
        rw [List.map_cons, List.nodup_append] at h
        exact fun hin => h.2.2 hin (List.mem_cons_self _ _)
      have hany : m.any (fun q => q.1 == upperStr a.1) = false := by
        rw [List.any_eq_false]
        intro q hq
        simp only [beq_iff_eq]
        intro he
        exact hnotin (he ▸ List.mem_map_of_mem Prod.fst hq)
      have hup : upsert m (upperStr a.1) a.2 = m ++ [(upperStr a.1, a.2)] := by
        simp [upsert, hany]
      have hnd2 : ((m ++ [(upperStr a.1, a.2)]).map Prod.fst
          ++ hs.map (fun p => upperStr p.1)).Nodup := by
        rw [List.map_append, List.append_assoc]
        simpa using h
      calc (a :: hs).foldl (fun m p => upsert m (upperStr p.1) p.2) m
          = hs.foldl (fun m p => upsert m (upperStr p.1) p.2) (m ++ [(upperStr a.1, a.2)]) := by
            rw [List.foldl_cons, hup]
        _ = (m ++ [(upperStr a.1, a.2)]) ++ (a :: hs).tail.map (fun p => (upperStr p.1, p.2)) :=
            ih _ hnd2
        _ = m ++ (a :: hs).map (fun p => (upperStr p.1, p.2)) := by simp

theorem build_mapper_eq (hs : List (String × ℤ))
    (hnod : (hs.map (fun p => upperStr p.1)).Nodup) :
    build_mapper hs = hs.map (fun p => (upperStr p.1, p.2)) := by
  have := build_mapper_aux hs [] (by simpa using hnod)
  simpa [build_mapper] using this

theorem lookup_mapper_self (hs : List (String × ℤ))
    (hnod : (hs.map (fun p => upperStr p.1)).Nodup) :
    ∀ p ∈ hs, lookup_mapper (build_mapper hs) (upperStr p.1) = p.2 := by
  rw [build_mapper_eq hs hnod]
  induction hs with
  | nil => intro p hp; cases hp
  | cons a hs ih =>
      intro p hp
      rcases List.mem_cons.mp hp with rfl | hp'
      · simp [lookup_mapper, List.lookup]
      · have hne : ¬ (upperStr p.1 == upperStr a.1) = true := by
          simp only [beq_iff_eq]
          intro he
          rw [List.map_cons, List.nodup_cons] at hnod
          exact hnod.1 (he ▸ List.mem_map_of_mem (fun q => upperStr q.1) hp')
        have hnod' : (hs.map (fun p => upperStr p.1)).Nodup := by
          rw [List.map_cons, List.nodup_cons] at hnod
          exact hnod.2
        simpa [lookup_mapper, List.lookup, hne] using ih hnod' p hp'

theorem return_matches_self_all (hs : List (String × ℤ)) (sid : ℤ)
    (hnod : (hs.map (fun p => upperStr p.1)).Nodup) :
    ∀ x ∈ return_matches hs (store_of sid hs), x = (sid, 0) := by
  intro x hx
  simp only [return_matches] at hx
  rw [List.mem_flatMap] at hx
  obtain ⟨batch, _, hx⟩ := hx
  rw [List.mem_map] at hx
  obtain ⟨r, hr, hxr⟩ := hx
  simp only [select_hash_in, List.mem_map] at hr
  obtain ⟨r0, hr0, rfl⟩ := hr
  have hr0' : r0 ∈ store_of sid hs := List.mem_of_mem_filter hr0
  simp only [store_of, List.mem_map] at hr0'
  obtain ⟨p, hp, rfl⟩ := hr0'
  rw [← hxr]
  have := lookup_mapper_self hs hnod p hp
  simp [this]

theorem return_matches_self_ne (hs : List (String × ℤ)) (sid : ℤ) (hne : hs ≠ [])
    (hnod : (hs.map (fun p => upperStr p.1)).Nodup)
    (hnem : ∀ p ∈ hs, upperStr p.1 ≠ "") :
    return_matches hs (store_of sid hs) ≠ [] := by
  obtain ⟨p0, hs', rfl⟩ := List.exists_cons_of_ne_nil hne
  have hmem0 : p0 ∈ p0 :: hs' := List.mem_cons_self _ _
  have hkey : upperStr p0.1 ∈ (build_mapper (p0 :: hs')).map Prod.fst := by
    rw [build_mapper_eq _ hnod]
    rw [List.map_map]
    exact List.mem_map_of_mem _ hmem0
  obtain ⟨c, hc, hkc⟩ := exists_chunk_of_mem (n := 1000) hkey
  have hbatch : c.filter (fun s => !(s == "")) ∈
      (chunkList 1000 ((build_mapper (p0 :: hs')).map Prod.fst)).map
        (List.filter (fun s => !(s == ""))) :=
    List.mem_map_of_mem _ hc
  have hkb : upperStr p0.1 ∈ c.filter (fun s => !(s == "")) := by
    rw [List.mem_filter]
    exact ⟨hkc, by simpa using hnem p0 hmem0⟩
  have hrow : (upperStr p0.1, sid, p0.2) ∈
      select_hash_in (store_of sid (p0 :: hs')) (c.filter (fun s => !(s == ""))) := by
    simp only [select_hash_in, List.mem_map]
    refine ⟨(p0.1, sid, p0.2), ?_, rfl⟩
    rw [List.mem_filter]
    constructor
    · simp only [store_of, List.mem_map]
      exact ⟨p0, hmem0, rfl⟩
    · simpa using hkb
  have hobs : ((sid, p0.2 - lookup_mapper (build_mapper (p0 :: hs')) (upperStr p0.1)) : ℤ × ℤ)
      ∈ return_matches (p0 :: hs') (store_of sid (p0 :: hs')) := by
    simp only [return_matches]
    rw [List.mem_flatMap]
    exact ⟨c.filter (fun s => !(s == "")), hbatch,
      List.mem_map.mpr ⟨(upperStr p0.1, sid, p0.2), hrow, rfl⟩⟩
  exact List.ne_nil_of_mem hobs

theorem run_vote_replicate (sid : ℤ) (n : ℕ) (hn : 0 < n) :
    (run_vote (List.replicate n (sid, 0))).song_id = sid
    ∧ (run_vote (List.replicate n (sid, 0))).largest = 0
    ∧ (run_vote (List.replicate n (sid, 0))).largest_count = n
    ∧ ∀ d' s', (run_vote (List.replicate n (sid, 0))).counts d' s'
        = if d' = 0 ∧ s' = sid then n else 0 := by
  induction n with
  | zero => exact absurd hn (lt_irrefl 0)
  | succ n ih =>
      rcases Nat.eq_zero_or_pos n with h0 | hpos
      · subst h0
        refine ⟨?_, ?_, ?_, ?_⟩
        · simp [run_vote, vote_step, initVote]
        · simp [run_vote, vote_step, initVote]
        · simp [run_vote, vote_step, initVote]
        · intro d' s'
          by_cases hd : d' = 0 ∧ s' = sid
          · simp [run_vote, vote_step, initVote, hd]
          · simp [run_vote, vote_step, initVote, hd]
      · obtain ⟨h1, h2, h3, h4⟩ := ih hpos
        have hfold : run_vote (List.replicate (n + 1) (sid, 0))
            = vote_step (run_vote (List.replicate n (sid, 0))) (sid, 0) := by
          rw [List.replicate_succ' n (sid, 0)]
          simp [run_vote, List.foldl_append]
        have hcnt : (run_vote (List.replicate n (sid, 0))).counts 0 sid = n := by
          rw [h4]
          simp
        have hlt2 : (run_vote (List.replicate n (sid, 0))).largest_count < n + 1 := by
          omega
        refine ⟨?_, ?_, ?_, ?_⟩
        · rw [hfold]
          simp only [vote_step]
          rw [hcnt, if_pos hlt2]
        · rw [hfold]
          simp only [vote_step]
          rw [hcnt, if_pos hlt2]
        · rw [hfold]
          simp only [vote_step]
          rw [hcnt, if_pos hlt2]
        · intro d' s'
          rw [hfold]
          simp only [vote_step]
          rw [hcnt, if_pos hlt2]
          by_cases hd : d' = 0 ∧ s' = sid
          · simp [hd]
          · simp [hd, h4 d' s']

/-- Core round-trip lemma at the raw hash-list level: when no uppercased
token repeats and no uppercased token is empty, every observation is
(sid, 0) and the voter returns the stored song at offset delta 0.  The two
token-shape hypotheses are discharged for actual hasher output below. -/
theorem round_trip_file_nodup (hs : List (String × ℤ)) (sid : ℤ)
    (get_song_by_id : ℤ → Option Song) (hne : hs ≠ [])
    (hnod : (hs.map (fun p => upperStr p.1)).Nodup)
    (hnem : ∀ p ∈ hs, upperStr p.1 ≠ "")
    (hlk : (get_song_by_id sid).isSome) :
    ∃ v, round_trip_file hs sid get_song_by_id = some v
      ∧ v.song_id = sid ∧ v.offset = 0 := by
  have hall := return_matches_self_all hs sid hnod
  have hnil := return_matches_self_ne hs sid hne hnod hnem
  have hrepl : return_matches hs (store_of sid hs)
      = List.replicate (return_matches hs (store_of sid hs)).length (sid, 0) :=
    List.eq_replicate_iff.mpr ⟨rfl, hall⟩
  have hlen : 0 < (return_matches hs (store_of sid hs)).length :=
    List.length_pos.mpr hnil
  obtain ⟨hsid, hlarge, _, _⟩ :=
    run_vote_replicate sid (return_matches hs (store_of sid hs)).length hlen
  have hsid2 : (run_vote (return_matches hs (store_of sid hs))).song_id = sid := by
    rw [hrepl]
    exact hsid
  have hlarge2 : (run_vote (return_matches hs (store_of sid hs))).largest = 0 := by
    rw [hrepl]
    exact hlarge
  obtain ⟨s, hs_eq⟩ := Option.isSome_iff_exists.mp hlk
  refine ⟨{ song_id := (run_vote (return_matches hs (store_of sid hs))).song_id,
            song_name := s.name,
            confidence := (run_vote (return_matches hs (store_of sid hs))).largest_count,
            offset := (run_vote (return_matches hs (store_of sid hs))).largest,
            offset_secs := offset_to_secs
              (run_vote (return_matches hs (store_of sid hs))).largest },
         ?_, hsid2, hlarge2⟩
  simp only [round_trip_file, align_matches_file]
  rw [hsid2, hs_eq]

/-- hexdigest length: each word contributes eight characters. -/
theorem hex8_length (n : ℕ) : (hex8 n).length = 8 := by
  simp [hex8]

/-- The sha1 hexdigest always has 40 characters. -/
theorem sha1Hex_data_length (msg : List ℕ) : (sha1Hex msg).data.length = 40 := by
  unfold sha1Hex
  generalize (chunkList 64 (sha1Pad msg)).foldl sha1Block
    (1732584193, 4023233417, 2562383102, 271733878, 3285377520) = t
  obtain ⟨h0, h1, h2, h3, h4⟩ := t
  simp [hex8]

/-- Every hash token is exactly FINGERPRINT_REDUCTION = 20 characters. -/
theorem hash_token_data_length (f1 f2 dt : ℤ) : (hash_token f1 f2 dt).data.length = 20 := by
  have h40 := sha1Hex_data_length
    (strBytes (toString f1 ++ "|" ++ toString f2 ++ "|" ++ toString dt))
  unfold hash_token strTake
  show (List.take FINGERPRINT_REDUCTION
    (sha1Hex (strBytes (toString f1 ++ "|" ++ toString f2 ++ "|" ++ toString dt))).data).length = 20
  rw [List.length_take, h40]
  decide

/-- A 20-character string does not uppercase to the empty string. -/
theorem upperStr_ne_empty_of_len {s : String} (h : s.data.length = 20) :
    upperStr s ≠ "" := by
  intro he
  have h0 : (upperStr s).data.length = 0 := by rw [he]; rfl
  have h1 : (s.data.map Char.toUpper).length = 0 := h0
  rw [List.length_map] at h1
  omega

/-- hexChar always yields one of the sixteen lower-case hex digits. -/
theorem hexChar_mem_hexdigits (n : ℕ) : hexChar n ∈ "0123456789abcdef".data := by
  unfold hexChar
  by_cases h : n < "0123456789abcdef".data.length
  · rw [List.getD_eq_getElem _ _ h]
    exact List.getElem_mem h
  · rw [List.getD_eq_default _ _ (by omega)]
    decide

/-- Every character of a sha1 hexdigest is a lower-case hex digit. -/
theorem sha1Hex_chars (msg : List ℕ) :
    ∀ c ∈ (sha1Hex msg).data, c ∈ "0123456789abcdef".data := by
  unfold sha1Hex
  generalize (chunkList 64 (sha1Pad msg)).foldl sha1Block
    (1732584193, 4023233417, 2562383102, 271733878, 3285377520) = t
  obtain ⟨h0, h1, h2, h3, h4⟩ := t
  intro c hc
  have hc' : c ∈ hex8 h0 ++ hex8 h1 ++ hex8 h2 ++ hex8 h3 ++ hex8 h4 := hc
  simp only [List.mem_append] at hc'
  rcases hc' with ((((h | h) | h) | h) | h) <;>
  · simp only [hex8, List.mem_map] at h
    obtain ⟨i, _, hi⟩ := h
    rw [← hi]
    exact hexChar_mem_hexdigits _

/-- Every character of a hash token is a lower-case hex digit. -/
theorem hash_token_chars (f1 f2 dt : ℤ) :
    ∀ c ∈ (hash_token f1 f2 dt).data, c ∈ "0123456789abcdef".data := by
  intro c hc
  unfold hash_token strTake at hc
  exact sha1Hex_chars _ c (List.mem_of_mem_take hc)

/-- Char.toUpper is injective on the sixteen lower-case hex digits. -/
theorem toUpper_inj_on_hexdigits :
    ∀ c1 ∈ "0123456789abcdef".data, ∀ c2 ∈ "0123456789abcdef".data,
      c1.toUpper = c2.toUpper → c1 = c2 := by decide

/-- Characterwise uppercasing is injective on hex-digit strings (lists). -/
theorem map_toUpper_inj_on_hexdigits :
    ∀ l1 l2 : List Char,
      (∀ c ∈ l1, c ∈ "0123456789abcdef".data) →
      (∀ c ∈ l2, c ∈ "0123456789abcdef".data) →
      l1.map Char.toUpper = l2.map Char.toUpper → l1 = l2 := by
  intro l1
  induction l1 with
  | nil =>
      intro l2 _ _ h
      cases l2 with
      | nil => rfl
      | cons b t => simp at h
  | cons a t1 ih =>
      intro l2 ha hb h
      cases l2 with
      | nil => simp at h
      | cons b t2 =>
          simp only [List.map_cons, List.cons.injEq] at h
          have hab : a = b :=
            toUpper_inj_on_hexdigits a (ha a (List.mem_cons_self a t1))
              b (hb b (List.mem_cons_self b t2)) h.1
          rw [hab, ih t2 (fun c hc => ha c (List.mem_cons_of_mem _ hc))
            (fun c hc => hb c (List.mem_cons_of_mem _ hc)) h.2]

/-- upperStr is injective on hex-digit strings, so two hash tokens collide
after the matcher's uppercasing only if they were already equal. -/
theorem upperStr_inj_on_hexdigits {s1 s2 : String}
    (h1 : ∀ c ∈ s1.data, c ∈ "0123456789abcdef".data)
    (h2 : ∀ c ∈ s2.data, c ∈ "0123456789abcdef".data)
    (h : upperStr s1 = upperStr s2) : s1 = s2 := by
  obtain ⟨d1⟩ := s1
  obtain ⟨d2⟩ := s2
  have hd : d1.map Char.toUpper = d2.map Char.toUpper := congrArg String.data h
  rw [map_toUpper_inj_on_hexdigits d1 d2 h1 h2 hd]

/-- Every token emitted by generate_hashes is a hash_token. -/
theorem generate_hashes_token (peaks : List (ℤ × ℤ)) (fan_value : ℕ) :
    ∀ x ∈ generate_hashes peaks fan_value, ∃ a b d, x.1 = hash_token a b d := by
  intro x hx
  simp only [generate_hashes] at hx
  rw [List.mem_flatMap] at hx
  obtain ⟨i, _, hx⟩ := hx
  rw [List.mem_filterMap] at hx
  obtain ⟨j, _, hfj⟩ := hx
  by_cases h1 : i + j < (sort_peaks peaks).length
  · rw [if_pos h1] at hfj
    by_cases h2 : MIN_HASH_TIME_DELTA ≤ ((sort_peaks peaks).getD (i + j) (0, 0)).2
        - ((sort_peaks peaks).getD i (0, 0)).2
        ∧ ((sort_peaks peaks).getD (i + j) (0, 0)).2
        - ((sort_peaks peaks).getD i (0, 0)).2 ≤ MAX_HASH_TIME_DELTA
    · rw [if_pos h2] at hfj
      exact ⟨_, _, _, (congrArg Prod.fst (Option.some.inj hfj)).symm⟩
    · rw [if_neg h2] at hfj
      exact absurd hfj (by simp)
  · rw [if_neg h1] at hfj
    exact absurd hfj (by simp)

/-- C1 (amended).  Round trip on exact match: when the hash list the Landmark
Hasher produces for a clip is nonempty and contains no repeated hash token,
storing the records under sid and matching the identical hash list against
that store yields a verdict whose song_id is sid and whose winning offset
delta is 0.  The token-shape facts the matcher relies on (tokens are 20
lower-case hex characters, hence nonempty and collision-free under
uppercasing exactly when distinct) are proved from the embedded hasher. -/
theorem round_trip_exact_match (peaks : List (ℤ × ℤ)) (fan_value : ℕ) (sid : ℤ)
    (get_song_by_id : ℤ → Option Song)
    (hne : generate_hashes peaks fan_value ≠ [])
    (hnod : ((generate_hashes peaks fan_value).map Prod.fst).Nodup)
    (hlk : (get_song_by_id sid).isSome) :
    ∃ v, round_trip_file (generate_hashes peaks fan_value) sid get_song_by_id = some v
      ∧ v.song_id = sid ∧ v.offset = 0 := by
  have htok := generate_hashes_token peaks fan_value
  have hhex : ∀ x ∈ generate_hashes peaks fan_value,
      ∀ c ∈ x.1.data, c ∈ "0123456789abcdef".data := by
    intro x hx
    obtain ⟨a, b, d, he⟩ := htok x hx
    rw [he]
    exact hash_token_chars a b d
  have hup : ((generate_hashes peaks fan_value).map (fun p => upperStr p.1)).Nodup := by
    have hmm : (generate_hashes peaks fan_value).map (fun p => upperStr p.1)
        = ((generate_hashes peaks fan_value).map Prod.fst).map upperStr := by
      rw [List.map_map]
      rfl
    rw [hmm]
    refine List.Nodup.map_on ?_ hnod
    intro x hx y hy hxy
    rw [List.mem_map] at hx hy
    obtain ⟨p, hp, hpx⟩ := hx
    obtain ⟨q, hq, hqy⟩ := hy
    rw [← hpx, ← hqy] at hxy ⊢
    exact upperStr_inj_on_hexdigits (hhex p hp) (hhex q hq) hxy
  have hnem : ∀ p ∈ generate_hashes peaks fan_value, upperStr p.1 ≠ "" := by
    intro p hp
    obtain ⟨a, b, d, he⟩ := htok p hp
    rw [he]
    exact upperStr_ne_empty_of_len (hash_token_data_length a b d)
  exact round_trip_file_nodup (generate_hashes peaks fan_value) sid get_song_by_id
    hne hup hnem hlk

/-- Witness for round_trip_exact_match at the two-peak clip with peaks (5,0)
and (6,3), whose fingerprint is one hash token, stored under song 7. -/
theorem round_trip_exact_match_witness :
    ∃ v, round_trip_file
        (generate_hashes [((5 : ℤ), (0 : ℤ)), ((6 : ℤ), (3 : ℤ))] DEFAULT_FAN_VALUE) 7
        (fun i => if i = 7 then some { id := 7, name := "stored" } else none) = some v
      ∧ v.song_id = 7 ∧ v.offset = 0 :=
  round_trip_exact_match [((5 : ℤ), (0 : ℤ)), ((6 : ℤ), (3 : ℤ))] DEFAULT_FAN_VALUE 7
    (fun i => if i = 7 then some { id := 7, name := "stored" } else none)
    (by decide) (by decide) (by decide)

/-! ### The spectrogram pipeline on all-zero buffers -/

theorem getD_zero_of_all_zero (l : List ℝ) (h : ∀ x ∈ l, x = 0) (n : ℕ) :
    l.getD n 0 = 0 := by
  rw [List.getD_eq_getElem?_getD]
  cases hg : l[n]? with
  | none => rfl
  | some v =>
      have hv : v ∈ l := List.getElem?_mem hg
      simp [h v hv]

theorem padded_all_zero (samples : List ℝ) (hz : ∀ x ∈ samples, x = 0) :
    ∀ x ∈ padded samples, x = 0 := by
  intro x hx
  unfold padded at hx
  by_cases h : samples.length < 4096
  · rw [if_pos h] at hx
    rcases List.mem_append.mp hx with h1 | h2
    · exact hz x h1
    · exact List.eq_of_mem_replicate h2
  · rw [if_neg h] at hx
    exact hz x hx

theorem center_mem_diamond : ((0, 0) : ℤ × ℤ) ∈ diamond := by decide

theorem xor_self_not {a b : Prop} (ha : a) (hb : b) : ¬ Xor' a b := fun h =>
  h.elim (fun w => w.2 hb) (fun w => w.2 ha)

theorem local_max_zero_grid (g : ℕ → ℕ → ℝ) (hg : ∀ f t, g f t = 0) (F T f t : ℕ) :
    local_max_at g F T f t := by
  unfold local_max_at max_filter
  rw [hg f t]
  apply le_antisymm
  · exact Finset.sup'_le _ _ (fun d _ => le_of_eq (hg _ _))
  · have h0 := Finset.le_sup' (f := fun d : ℤ × ℤ =>
      g (reflect_index F ((f : ℤ) + d.1)) (reflect_index T ((t : ℤ) + d.2)))
      center_mem_diamond
    rw [hg] at h0
    exact h0

theorem eroded_zero_grid (g : ℕ → ℕ → ℝ) (hg : ∀ f t, g f t = 0) (F T f t : ℕ) :
    eroded_background_at g F T f t := fun _ _ _ _ _ _ => hg _ _

theorem get_2d_peaks_zero_grid (g : ℕ → ℕ → ℝ) (hg : ∀ f t, g f t = 0)
    (F T : ℕ) (amp_min : ℝ) : get_2d_peaks g F T amp_min = [] := by
  unfold get_2d_peaks
  rw [List.flatMap_eq_nil_iff]
  intro f _
  rw [List.filterMap_eq_nil_iff]
  intro t _
  rw [if_neg]
  rintro ⟨hdet, _⟩
  exact xor_self_not (local_max_zero_grid g hg F T f t) (eroded_zero_grid g hg F T f t) hdet

theorem fingerprint_zero (samples : List ℝ) (hz : ∀ x ∈ samples, x = 0) :
    fingerprint samples = [] := by
  have hg : ∀ f t, spec_grid samples f t = 0 := by
    intro f t
    have hdft : frame_dft samples t f = 0 := by
      unfold frame_dft
      apply Finset.sum_eq_zero
      intro n _
      rw [getD_zero_of_all_zero (padded samples) (padded_all_zero samples hz)]
      simp
    unfold spec_grid spec_power
    rw [hdft]
    simp [log_transform]
  unfold fingerprint
  rw [get_2d_peaks_zero_grid _ hg]
  rfl

/-- C7 (amended).  Every sample buffer that is all-zero - in particular the
empty buffer - and shorter than one FFT window yields an empty hash list and
no error: mlab.specgram zero-pads it to one window, every PSD cell is 0, the
eroded background swallows every local-max candidate, so no peaks and no
hashes result. -/
theorem short_buffer_empty_hashes (samples : List ℝ) (_hlen : samples.length < 4096)
    (hz : ∀ x ∈ samples, x = 0) : fingerprint samples = [] :=
  fingerprint_zero samples hz

/-- Witness for short_buffer_empty_hashes at the empty buffer. -/
theorem short_buffer_empty_hashes_witness : fingerprint ([] : List ℝ) = [] :=
  short_buffer_empty_hashes [] (by norm_num) (by intro x hx; cases hx)

/-- C1 counterexample, in two parts, one per restriction of the amendment.
Part 1 (the hash list must be nonempty): the non-empty clip [0] (one zero
sample) fingerprints to an empty hash list, so the round trip produces zero
observations; the voter keeps the sentinel song_id -1, whose lookup is
absent, and align_matches of recognize_from_file.py fails (none) instead of
returning a verdict for the stored song 7 with offset delta 0.
Part 2 (no hash token may repeat): for the hash list [("AB", 0), ("AB", 1)]
- one token at two offsets - the dict comprehension keeps only the last
offset (mapper["AB"] = 1), both stored rows match the single batch token,
the observations are [(7, -1), (7, 0)], and the strict > in the voting loop
lets the first-seen cell keep the win on the tie: the round trip returns a
verdict for song 7 at offset delta -1, not 0. -/
theorem round_trip_failures_cex :
    (([(0 : ℝ)] ≠ ([] : List ℝ))
      ∧ clip_round_trip [(0 : ℝ)] 7
          (fun i => if i = 7 then some { id := 7, name := "stored" } else none) = none)
    ∧ round_trip_file [("AB", (0 : ℤ)), ("AB", (1 : ℤ))] 7
        (fun i => if i = 7 then some { id := 7, name := "stored" } else none)
        = some { song_id := 7, song_name := "stored", confidence := 1, offset := -1,
                 offset_secs := offset_to_secs (-1) } := by
  refine ⟨⟨by simp, ?_⟩, by rfl⟩
  have hfp : fingerprint [(0 : ℝ)] = [] :=
    fingerprint_zero _ (by intro x hx; simpa using hx)
  unfold clip_round_trip
  rw [hfp]
  rfl

/-! ### The spectrogram pipeline on a short loud buffer (2048 samples,
a single full-scale impulse at index 2047, zero-padded to one window) -/

theorem padded_c7_eq :
    padded (List.replicate 2047 (0 : ℝ) ++ [(32767 : ℝ)])
      = (List.replicate 2047 (0 : ℝ) ++ [(32767 : ℝ)]) ++ List.replicate 2048 0 := by
  unfold padded
  have hcl : (List.replicate 2047 (0 : ℝ) ++ [(32767 : ℝ)]).length < 4096 := by
    rw [List.length_append, List.length_replicate, List.length_singleton]
    norm_num
  rw [if_pos hcl]
  have hlen : 4096 - (List.replicate 2047 (0 : ℝ) ++ [(32767 : ℝ)]).length = 2048 := by
    rw [List.length_append, List.length_replicate, List.length_singleton]
  rw [hlen]

theorem padded_c7_getD (n : ℕ) :
    (padded (List.replicate 2047 (0 : ℝ) ++ [(32767 : ℝ)])).getD n 0
      = if n = 2047 then (32767 : ℝ) else 0 := by
  rw [padded_c7_eq]
  by_cases h1 : n < 2047
  · rw [List.append_assoc]
    rw [List.getD_append _ _ _ _ (by simpa using h1)]
    rw [List.getD_eq_getElem?_getD, List.getElem?_replicate, if_pos h1]
    simp [Nat.ne_of_lt h1]
  · by_cases h2 : n = 2047
    · subst h2
      rw [List.append_assoc, List.getD_append_right _ _ _ _ (by rw [List.length_replicate])]
      rw [List.length_replicate, Nat.sub_self, List.singleton_append, List.getD_cons_zero]
      rw [if_pos rfl]
    · have hle : (List.replicate 2047 (0 : ℝ) ++ [(32767 : ℝ)]).length ≤ n := by
        rw [List.length_append, List.length_replicate, List.length_singleton]
        omega
      rw [List.getD_append_right _ _ _ _ hle]
      rw [List.getD_eq_getElem?_getD, List.getElem?_replicate, if_neg h2]
      by_cases h4 : n - (List.replicate 2047 (0 : ℝ) ++ [(32767 : ℝ)]).length < 2048
      · rw [if_pos h4]
        rfl
      · rw [if_neg h4]
        rfl

theorem frame_dft_c7 (f : ℕ) :
    frame_dft (List.replicate 2047 (0 : ℝ) ++ [(32767 : ℝ)]) 0 f
      = ((32767 * hann_window 2047 : ℝ) : ℂ)
        * Complex.exp ((-(2 * Real.pi * 2047 * f / 4096) : ℝ) * Complex.I) := by
  unfold frame_dft
  rw [Finset.sum_eq_single 2047]
  · rw [show 2048 * 0 + 2047 = 2047 by ring, padded_c7_getD]
    norm_num
  · intro b _ hb
    rw [show 2048 * 0 + b = b by ring, padded_c7_getD, if_neg hb]
    simp
  · intro hmem
    exact absurd (Finset.mem_range.mpr (by norm_num)) hmem

theorem normSq_c7 (f : ℕ) :
    Complex.normSq (frame_dft (List.replicate 2047 (0 : ℝ) ++ [(32767 : ℝ)]) 0 f)
      = (32767 * hann_window 2047) ^ 2 := by
  rw [frame_dft_c7, Complex.normSq_mul, Complex.normSq_ofReal]
  rw [Complex.normSq_eq_abs, Complex.abs_exp_ofReal_mul_I]
  ring

theorem hann_window_nonneg (n : ℕ) : 0 ≤ hann_window n := by
  unfold hann_window
  have := Real.cos_le_one (2 * Real.pi * n / 4095)
  linarith

theorem hann_window_le_one (n : ℕ) : hann_window n ≤ 1 := by
  unfold hann_window
  have := Real.neg_one_le_cos (2 * Real.pi * n / 4095)
  linarith

theorem hann_2047_ge : (999 : ℝ) / 1000 ≤ hann_window 2047 := by
  unfold hann_window
  have harg : 2 * Real.pi * (2047 : ℕ) / 4095 = Real.pi - Real.pi / 4095 := by
    push_cast
    ring
  rw [harg, Real.cos_pi_sub]
  have hcos : 1 - (Real.pi / 4095) ^ 2 / 2 ≤ Real.cos (Real.pi / 4095) :=
    Real.one_sub_sq_div_two_le_cos
  have hpi4 : Real.pi ≤ 4 := Real.pi_le_four
  have hpi0 : 0 < Real.pi := Real.pi_pos
  have hsq : (Real.pi / 4095) ^ 2 ≤ (4 / 4095 : ℝ) ^ 2 := by
    apply pow_le_pow_left₀ (by positivity)
    exact (div_le_div_iff_of_pos_right (by norm_num)).mpr hpi4
  have hsq2 : ((4 : ℝ) / 4095) ^ 2 = 16 / 16769025 := by norm_num
  rw [hsq2] at hsq
  linarith

theorem window_norm_le : window_norm ≤ 4096 := by
  unfold window_norm
  have hb := Finset.sum_le_card_nsmul (Finset.range 4096) (fun n => hann_window n ^ 2) 1
    (fun n _ => by
      have h1 := hann_window_nonneg n
      have h2 := hann_window_le_one n
      show hann_window n ^ 2 ≤ 1
      nlinarith)
  simpa using hb

theorem window_norm_pos : 0 < window_norm := by
  have hmem : (2047 : ℕ) ∈ Finset.range 4096 := Finset.mem_range.mpr (by norm_num)
  have hle := Finset.single_le_sum (f := fun n => hann_window n ^ 2)
    (fun i _ => sq_nonneg _) hmem
  have h999 := hann_2047_ge
  have hle2 : hann_window 2047 ^ 2 ≤ ∑ n ∈ Finset.range 4096, hann_window n ^ 2 := hle
  unfold window_norm
  nlinarith [hle2, h999]

theorem spec_power_c7_val (f : ℕ) (h1 : f ≠ 0) (h2 : f ≠ 2048) :
    spec_power (List.replicate 2047 (0 : ℝ) ++ [(32767 : ℝ)]) f 0
      = 2 * (32767 * hann_window 2047) ^ 2 / (44100 * window_norm) := by
  unfold spec_power
  rw [normSq_c7, if_neg (by tauto)]

theorem spec_power_c7_gt (f : ℕ) (h1 : f ≠ 0) (h2 : f ≠ 2048) :
    10 < spec_power (List.replicate 2047 (0 : ℝ) ++ [(32767 : ℝ)]) f 0 := by
  rw [spec_power_c7_val f h1 h2]
  rw [lt_div_iff₀ (mul_pos (by norm_num) window_norm_pos)]
  have hW := window_norm_le
  have hh := hann_2047_ge
  have hh2 : ((999 : ℝ) / 1000) ^ 2 ≤ hann_window 2047 ^ 2 :=
    pow_le_pow_left₀ (by norm_num) hh 2
  nlinarith [hh2, hW]

theorem spec_grid_c7_gt (f : ℕ) (h1 : f ≠ 0) (h2 : f ≠ 2048) :
    10 < spec_grid (List.replicate 2047 (0 : ℝ) ++ [(32767 : ℝ)]) f 0 := by
  have hp := spec_power_c7_gt f h1 h2
  unfold spec_grid log_transform
  rw [if_neg (by linarith)]
  have hlt := Real.logb_lt_logb (b := 10) (by norm_num) (by norm_num) hp
  rw [Real.logb_self_eq_one (by norm_num)] at hlt
  linarith

theorem spec_grid_c7_eq (f f' : ℕ) (ha : f ≠ 0) (hb : f ≠ 2048)
    (hc : f' ≠ 0) (hd : f' ≠ 2048) :
    spec_grid (List.replicate 2047 (0 : ℝ) ++ [(32767 : ℝ)]) f 0
      = spec_grid (List.replicate 2047 (0 : ℝ) ++ [(32767 : ℝ)]) f' 0 := by
  unfold spec_grid
  rw [spec_power_c7_val f ha hb, spec_power_c7_val f' hc hd]

theorem num_frames_c7 :
    num_frames (List.replicate 2047 (0 : ℝ) ++ [(32767 : ℝ)]) = 1 := by
  unfold num_frames
  rw [padded_c7_eq, List.length_append, List.length_append, List.length_replicate,
    List.length_singleton, List.length_replicate]

theorem reflect_index_one (j : ℤ) : reflect_index 1 j = 0 := by
  simp only [reflect_index]
  rcases Int.emod_two_eq_zero_or_one j with h | h <;> norm_num [h]

theorem reflect_index_of_lt {L : ℕ} {j : ℤ} (h0 : 0 ≤ j) (hL : j < (L : ℤ)) :
    reflect_index L j = j.toNat := by
  simp only [reflect_index]
  rw [Int.emod_eq_of_lt h0 (by omega)]
  rw [if_pos (by omega)]

theorem mem_diamond_bounds {d : ℤ × ℤ} (hd : d ∈ diamond) :
    -20 ≤ d.1 ∧ d.1 ≤ 20 ∧ -20 ≤ d.2 ∧ d.2 ≤ 20 := by
  simp only [diamond, Finset.mem_filter, Finset.mem_product, Finset.mem_Icc] at hd
  exact ⟨hd.1.1.1, hd.1.1.2, hd.1.2.1, hd.1.2.2⟩

theorem local_max_c7 {f0 : ℕ} (ha : 21 ≤ f0) (hb : f0 ≤ 2027) :
    local_max_at (spec_grid (List.replicate 2047 (0 : ℝ) ++ [(32767 : ℝ)])) 2049 1 f0 0 := by
  unfold local_max_at max_filter
  have hcong : ∀ d ∈ diamond,
      spec_grid (List.replicate 2047 (0 : ℝ) ++ [(32767 : ℝ)])
          (reflect_index 2049 ((f0 : ℤ) + d.1)) (reflect_index 1 (((0 : ℕ) : ℤ) + d.2))
        = spec_grid (List.replicate 2047 (0 : ℝ) ++ [(32767 : ℝ)]) f0 0 := by
    intro d hd
    obtain ⟨b1, b2, b3, b4⟩ := mem_diamond_bounds hd
    rw [reflect_index_one]
    have h0le : (0 : ℤ) ≤ (f0 : ℤ) + d.1 := by omega
    have hlt : (f0 : ℤ) + d.1 < ((2049 : ℕ) : ℤ) := by push_cast; omega
    rw [reflect_index_of_lt h0le hlt]
    exact spec_grid_c7_eq _ _ (by omega) (by omega) (by omega) (by omega)
  exact (Finset.sup'_congr _ rfl hcong).trans (Finset.sup'_const _ _)

theorem not_eroded_c7 {f0 : ℕ} (ha : 21 ≤ f0) (hb : f0 ≤ 2027) :
    ¬ eroded_background_at (spec_grid (List.replicate 2047 (0 : ℝ) ++ [(32767 : ℝ)]))
        2049 1 f0 0 := by
  intro h
  have hbg := h (0, 0) center_mem_diamond (by omega) (by push_cast; omega)
    (by norm_num) (by norm_num)
  unfold background_at at hbg
  have hgt := spec_grid_c7_gt f0 (by omega) (by omega)
  rw [show ((f0 : ℤ) + ((0, 0) : ℤ × ℤ).1).toNat = f0 by omega,
      show ((((0 : ℕ) : ℤ)) + ((0, 0) : ℤ × ℤ).2).toNat = 0 by omega] at hbg
  linarith

theorem detected_c7 {f0 : ℕ} (ha : 21 ≤ f0) (hb : f0 ≤ 2027) :
    detected_peak_at (spec_grid (List.replicate 2047 (0 : ℝ) ++ [(32767 : ℝ)]))
      2049 1 f0 0 :=
  Or.inl ⟨local_max_c7 ha hb, not_eroded_c7 ha hb⟩

theorem mem_peaks_c7 (f0 : ℕ) (ha : 21 ≤ f0) (hb : f0 ≤ 2027) :
    ((f0 : ℤ), (0 : ℤ)) ∈ get_2d_peaks
      (spec_grid (List.replicate 2047 (0 : ℝ) ++ [(32767 : ℝ)])) 2049 1 DEFAULT_AMP_MIN := by
  unfold get_2d_peaks
  rw [List.mem_flatMap]
  refine ⟨f0, List.mem_range.mpr (by omega), ?_⟩
  rw [List.mem_filterMap]
  refine ⟨0, List.mem_range.mpr (by norm_num), ?_⟩
  have hamp : DEFAULT_AMP_MIN <
      spec_grid (List.replicate 2047 (0 : ℝ) ++ [(32767 : ℝ)]) f0 0 := by
    have := spec_grid_c7_gt f0 (by omega) (by omega)
    simpa [DEFAULT_AMP_MIN] using this
  rw [if_pos ⟨detected_c7 ha hb, hamp⟩]
  norm_num

theorem peaks_time_zero {g : ℕ → ℕ → ℝ} {F : ℕ} {amp : ℝ} :
    ∀ x ∈ get_2d_peaks g F 1 amp, x.2 = 0 := by
  intro x hx
  unfold get_2d_peaks at hx
  rw [List.mem_flatMap] at hx
  obtain ⟨f, _, hx⟩ := hx
  rw [List.mem_filterMap] at hx
  obtain ⟨t, ht, hft⟩ := hx
  rw [List.mem_range] at ht
  have ht0 : t = 0 := by omega
  subst ht0
  by_cases hc : detected_peak_at g F 1 f 0 ∧ amp < g f 0
  · rw [if_pos hc] at hft
    rw [← Option.some.inj hft]
    norm_num
  · rw [if_neg hc] at hft
    exact absurd hft Option.noConfusion

theorem two_mem_le_length {α : Type*} [DecidableEq α] {l : List α} {a b : α}
    (ha : a ∈ l) (hb : b ∈ l) (hab : a ≠ b) : 2 ≤ l.length := by
  have hsub : ({a, b} : Finset α) ⊆ l.toFinset := by
    intro x hx
    rcases Finset.mem_insert.mp hx with rfl | hx
    · exact List.mem_toFinset.mpr ha
    · rw [Finset.mem_singleton] at hx
      subst hx
      exact List.mem_toFinset.mpr hb
  calc 2 = ({a, b} : Finset α).card := (Finset.card_pair hab).symm
    _ ≤ l.toFinset.card := Finset.card_le_card hsub
    _ ≤ l.length := List.toFinset_card_le l

theorem generate_hashes_ne_of_two {ps : List (ℤ × ℤ)} (h2 : 2 ≤ ps.length)
    (hz : ∀ x ∈ ps, x.2 = 0) : generate_hashes ps DEFAULT_FAN_VALUE ≠ [] := by
  have hlen : (sort_peaks ps).length = ps.length :=
    (List.perm_insertionSort _ ps).length_eq
  have hz' : ∀ x ∈ sort_peaks ps, x.2 = 0 := fun x hx =>
    hz x ((List.perm_insertionSort _ ps).mem_iff.mp hx)
  have h01 : 0 + 1 < (sort_peaks ps).length := by omega
  have e0 : ((sort_peaks ps).getD 0 (0, 0)).2 = 0 := by
    rw [List.getD_eq_getElem _ _ (by omega)]
    exact hz' _ (List.getElem_mem _)
  have e1 : ((sort_peaks ps).getD (0 + 1) (0, 0)).2 = 0 := by
    rw [List.getD_eq_getElem _ _ (by omega)]
    exact hz' _ (List.getElem_mem _)
  apply List.ne_nil_of_mem
    (a := (hash_token ((sort_peaks ps).getD 0 (0, 0)).1
            ((sort_peaks ps).getD (0 + 1) (0, 0)).1
            (((sort_peaks ps).getD (0 + 1) (0, 0)).2 - ((sort_peaks ps).getD 0 (0, 0)).2),
          ((sort_peaks ps).getD 0 (0, 0)).2))
  simp only [generate_hashes]
  rw [List.mem_flatMap]
  refine ⟨0, List.mem_range.mpr (by omega), ?_⟩
  rw [List.mem_filterMap]
  refine ⟨1, ?_, ?_⟩
  · rw [List.mem_range'_1]
    norm_num [DEFAULT_FAN_VALUE]
  · have hcond : MIN_HASH_TIME_DELTA ≤
        ((sort_peaks ps).getD (0 + 1) (0, 0)).2 - ((sort_peaks ps).getD 0 (0, 0)).2
        ∧ ((sort_peaks ps).getD (0 + 1) (0, 0)).2 - ((sort_peaks ps).getD 0 (0, 0)).2
          ≤ MAX_HASH_TIME_DELTA := by
      rw [e0, e1]
      norm_num [MIN_HASH_TIME_DELTA, MAX_HASH_TIME_DELTA]
    rw [if_pos h01, if_pos hcond]

/-- C7 counterexample.  A loud 2048-sample buffer - shorter than one FFT
window - does not fingerprint to an empty hash set: zero-padded to one
window, its single full-scale impulse puts every interior frequency bin of
the one-column PSD spectrogram at the same level above the amplitude floor,
so thousands of equal-time peaks are detected and generate_hashes emits
hashes for their zero-delta pairs. -/
theorem short_loud_buffer_cex :
    (List.replicate 2047 (0 : ℝ) ++ [(32767 : ℝ)]).length < 4096
    ∧ (List.replicate 2047 (0 : ℝ) ++ [(32767 : ℝ)]) ≠ []
    ∧ fingerprint (List.replicate 2047 (0 : ℝ) ++ [(32767 : ℝ)]) ≠ [] := by
  refine ⟨?_, ?_, ?_⟩
  · rw [List.length_append, List.length_replicate, List.length_singleton]
    norm_num
  · simp
  · unfold fingerprint
    rw [num_frames_c7]
    apply generate_hashes_ne_of_two
    · exact two_mem_le_length (mem_peaks_c7 1000 (by norm_num) (by norm_num))
        (mem_peaks_c7 1001 (by norm_num) (by norm_num)) (by decide)
    · exact peaks_time_zero
